import Mathlib

/-!
Verification of the SQL-lineage transformation-logic enhancement engine
(`sql_lineage_enhanced.py` / `sql_lineage_utils.py`).

Shallow embedding conventions:
* SQL scalar expressions are represented by the tree type `SqlExpr`; a
  transformation-logic string is identified with its parse tree (the external
  parser/serializer pair is assumed to round-trip, per the spec's
  TransformationExpression invariant).  Composite expressions (function calls,
  operators) are modelled by unary/binary nodes; the code under verification
  only ever inspects column leaves and rebuilds the surrounding structure, so
  arity is irrelevant to the verified properties.
* `sqlglot.parse_one("SELECT " ++ logic)` yields a single projection that may
  carry a projection-level alias; this is the `ProjExpr` wrapper.  Column
  nodes are leaves of `SqlExpr`; a column with no qualifier has `table = ""`
  (sqlglot's `col.table` returns the empty string in that case).
* Python dicts are association lists whose assignment `d[k] = v` is
  `dictInsert` (all earlier entries for `k` removed, lookup finds `v`).
-/

/-- SQL scalar-expression trees.  `col t n` is a (possibly qualified) column
reference `t.n` with `t = ""` meaning unqualified; `lit` is a literal; `fn1` /
`fn2` are composite nodes (function application / binary operator). -/
inductive SqlExpr where
  | col (table : String) (name : String)
  | lit (v : String)
  | fn1 (op : String) (a : SqlExpr)
  | fn2 (op : String) (a : SqlExpr) (b : SqlExpr)
deriving DecidableEq, Repr

/-- The parse of `SELECT <logic>`: one projection expression together with an
optional projection-level alias (`x AS y`). -/
structure ProjExpr where
  expr : SqlExpr
  projAlias : Option String
deriving DecidableEq, Repr

/-- All column references `(table, name)` occurring in an expression. -/
def colsOf : SqlExpr → List (String × String)
  | .col t n => [(t, n)]
  | .lit _ => []
  | .fn1 _ a => colsOf a
  | .fn2 _ a b => colsOf a ++ colsOf b

/-- Python dict assignment `d[k] = v` on an association list: every earlier
binding of `k` is removed and the new binding appended. -/
def dictInsert {α : Type} (k : String) (v : α) (m : List (String × α)) :
    List (String × α) :=
  (m.filter (fun kv => kv.1 ≠ k)) ++ [(k, v)]

/-- A CTE (or derived-table / temp-table) definition: the alias, the
serialized body, and the per-output-column defining expressions
(`column_mappings`, stored post-alias-stripping as parse trees). -/
structure CTEDefinition where
  name : String
  select_expression : String
  columnMappings : List (String × SqlExpr)
deriving DecidableEq, Repr

/-- `check_if_provided_name_is_columns_of_another_cte` combined with the
replacement loop that follows it: the defining expression of `colName` in the
first definition (in mapping-iteration order) exporting a column of that name.
(The source calls `col_ref.replace` once per matching definition, but after
the first replacement the node is detached, so later calls are no-ops: the
first definition wins.) -/
def firstExport (defs : List (String × CTEDefinition)) (colName : String) :
    Option SqlExpr :=
  match defs with
  | [] => none
  | (_, d) :: rest =>
    match d.columnMappings.lookup colName with
    | some e => some e
    | none => firstExport rest colName

/-- `check_if_provided_name_is_columns_of_another_cte`. -/
def check_if_provided_name_is_columns_of_another_cte
    (colName : String) (defs : List (String × CTEDefinition)) : Bool :=
  (firstExport defs colName).isSome

/-- One column reference processed by the expansion pass: replaced by its
defining expression when its qualifier names a tracked definition exporting
the column, or (failing that) when the qualifier itself collides with a column
name exported by some definition.  Returns the (possibly replaced) node and
whether a replacement occurred. -/
def substColE (defs : List (String × CTEDefinition)) (t n : String) :
    SqlExpr × Bool :=
  if t ≠ "" ∧ (defs.lookup t).isSome then
    match defs.lookup t with
    | some d =>
      match d.columnMappings.lookup n with
      | some ce => (ce, true)
      | none => (.col t n, false)
    | none => (.col t n, false)
  else
    match firstExport defs t with
    | some ce => (ce, true)
    | none => (.col t n, false)

/-- One full expansion pass over the snapshot of all column references
(`list(expr.find_all(exp.Column))`): each column leaf is rewritten
independently and replacements are not revisited within the pass.  The `Bool`
is the pass's `changed` flag. -/
def expandPassE (defs : List (String × CTEDefinition)) :
    SqlExpr → SqlExpr × Bool
  | .col t n => substColE defs t n
  | .lit v => (.lit v, false)
  | .fn1 op a =>
    let ra := expandPassE defs a
    (.fn1 op ra.1, ra.2)
  | .fn2 op a b =>
    let ra := expandPassE defs a
    let rb := expandPassE defs b
    (.fn2 op ra.1 rb.1, ra.2 || rb.2)

/-- The text produced by one pass: the rewritten projection with its
projection-level alias stripped (the "Extract the result" step). -/
def passOnce (defs : List (String × CTEDefinition)) (p : ProjExpr) : ProjExpr :=
  ⟨(expandPassE defs p.expr).1, none⟩

/-- `expand_cte_references_recursively`: with no definitions or exhausted
depth the input is returned unchanged; otherwise one pass runs, and if it
replaced something and more than one unit of depth remains, expansion re-runs
on the new text with depth `- 1`. -/
def expand_cte_references_recursively
    (defs : List (String × CTEDefinition)) (p : ProjExpr) :
    Nat → ProjExpr
  | 0 => p
  | d + 1 =>
    if defs.isEmpty then p
    else
      let r := expandPassE defs p.expr
      if r.2 ∧ 1 ≤ d then
        expand_cte_references_recursively defs ⟨r.1, none⟩ d
      else
        ⟨r.1, none⟩

/-- Python `ident.split(".")` (always non-empty). -/
def splitDotAux : List Char → List Char → List String
  | [], cur => [String.mk cur.reverse]
  | '.' :: rest, cur => String.mk cur.reverse :: splitDotAux rest []
  | c :: rest, cur => splitDotAux rest (c :: cur)

/-- The bare table name of a canonical dataset identifier: its last
dot-separated segment.  (In the source the identifier is carried inside a
dataset URN; `DatasetUrn.from_string(urn).name` yields this dotted identifier,
modelled here directly as the binding's value.) -/
def tableNameFromIdent (ident : String) : String :=
  (splitDotAux ident.data []).getLastD ident

/-- The qualifier rewrite of `replace_table_aliases_with_names` applied to one
column's `table` field: a non-empty qualifier bound in the mapping becomes the
bare table name of its canonical identifier; everything else is untouched. -/
def rewriteQual (m : List (String × String)) (t : String) : String :=
  if t = "" then t
  else
    match m.lookup t with
    | some ident => tableNameFromIdent ident
    | none => t

/-- In-place qualifier rewriting over every column reference. -/
def mapQual (m : List (String × String)) : SqlExpr → SqlExpr
  | .col t n => .col (rewriteQual m t) n
  | .lit v => .lit v
  | .fn1 op a => .fn1 op (mapQual m a)
  | .fn2 op a b => .fn2 op (mapQual m a) (mapQual m b)

/-- `replace_table_aliases_with_names`: with an empty mapping the input text
is returned unchanged; otherwise every bound qualifier is rewritten and the
reserialized result has its projection alias stripped. -/
def replace_table_aliases_with_names
    (p : ProjExpr) (m : List (String × String)) : ProjExpr :=
  if m.isEmpty then p else ⟨mapQual m p.expr, none⟩

/-- The alias-binding mapping is *stable* when every bare table name it can
produce is either not itself a bound alias, or is bound to an identifier with
that same bare name. -/
def StableBindings (m : List (String × String)) : Prop :=
  ∀ kv ∈ m, ∀ id2, m.lookup (tableNameFromIdent kv.2) = some id2 →
    tableNameFromIdent id2 = tableNameFromIdent kv.2

/-- A single-column upstream reference in the base lineage result.  An empty
`column` models a falsy (absent) column. -/
structure ColumnRef where
  table : String
  column : String
deriving DecidableEq, Repr

/-- The downstream side of one column-lineage relationship. -/
structure DownstreamRef where
  table : String
  column : String
deriving DecidableEq, Repr

/-- The textual transformation attached to one column-lineage relationship. -/
structure ColumnLogic where
  is_direct_copy : Bool
  column_logic : ProjExpr
deriving DecidableEq, Repr

/-- One column-lineage relationship of the base lineage result. -/
structure ColumnLineageInfo where
  downstream : DownstreamRef
  upstreams : List ColumnRef
  logic : Option ColumnLogic
deriving DecidableEq, Repr

/-- Diagnostics of the base lineage result; `error` (used in the fatal
message) is the table error when present, else the column error. -/
structure SqlParsingDebugInfo where
  table_error : Option String
  column_error : Option String
  confidence : Nat
deriving DecidableEq, Repr

/-- `debug_info.error`: the table error if any, else the column error. -/
def debugErr (d : SqlParsingDebugInfo) : String :=
  match d.table_error with
  | some e => e
  | none =>
    match d.column_error with
    | some e => e
    | none => "None"

/-- The base lineage result returned by the external resolver. -/
structure SqlParsingResult where
  in_tables : List String
  out_tables : List String
  column_lineage : Option (List ColumnLineageInfo)
  debug_info : SqlParsingDebugInfo
deriving DecidableEq, Repr

/-- A field involved in the query: a whole table or one schema field. -/
inductive FieldRef where
  | tableRef (t : String)
  | fieldRef (t : String) (c : String)
deriving DecidableEq, Repr

/-- One fine-grained lineage fact.  `transform` carries the
`(is_direct_copy, enhanced logic)` pair whose serialization is prefixed
`COPY: ` / `SQL: ` in the emitted `transformOperation`. -/
structure FineGrainedFact where
  upstream_fields : List (String × String)
  downstream_field : String × String
  transform : Option (Bool × ProjExpr)
  query : String
  confidence : Nat
deriving DecidableEq, Repr

/-- The per-upstream-table dataset patch: one coarse-grained upstream edge
plus the fine-grained facts. -/
structure UpstreamPatch where
  downstream : String
  upstream : String
  query : String
  fgls : List FineGrainedFact
deriving DecidableEq, Repr

/-- Everything the pipeline emits on success. -/
structure EnhancedLineageOutput where
  query_urn : String
  fields_involved : List FieldRef
  patches : List UpstreamPatch
deriving DecidableEq, Repr

/-- First-occurrence deduplicating accumulation (`OrderedSet.add`). -/
def keepFirstAux {α : Type} [DecidableEq α] (acc : List α) : List α → List α
  | [] => acc
  | x :: xs =>
    if x ∈ acc then keepFirstAux acc xs else keepFirstAux (acc ++ [x]) xs

/-- The list with later duplicates dropped (`OrderedSet` contents). -/
def keepFirst {α : Type} [DecidableEq α] (l : List α) : List α :=
  keepFirstAux [] l

/-- `fields_involved`: the downstream table, the distinct upstream tables, and
every schema field touched by the column lineage, first occurrence first. -/
def fieldsInvolved (r : SqlParsingResult) (downstream : String) :
    List FieldRef :=
  keepFirst
    ([FieldRef.tableRef downstream] ++
      ((r.in_tables.filter (fun u => u ≠ downstream)).map FieldRef.tableRef) ++
      (match r.column_lineage with
       | none => []
       | some cls =>
         cls.flatMap (fun cl =>
           (if cl.downstream.column ≠ "" then
              [FieldRef.fieldRef downstream cl.downstream.column]
            else []) ++
           ((cl.upstreams.filter
               (fun ref => ref.table ≠ "" ∧ ref.column ≠ "")).map
             (fun ref => FieldRef.fieldRef ref.table ref.column)))))

/-- Steps 1–2 of the per-column enhancement: CTE expansion (depth 5) when
enabled and definitions exist, then alias replacement when enabled and
bindings exist. -/
def enhanceLogic (expand_ctes replace_aliases : Bool)
    (defs : List (String × CTEDefinition)) (bindings : List (String × String))
    (raw : ProjExpr) : ProjExpr :=
  let e1 :=
    if expand_ctes ∧ ¬defs.isEmpty then
      expand_cte_references_recursively defs raw 5
    else raw
  if replace_aliases ∧ ¬bindings.isEmpty then
    replace_table_aliases_with_names e1 bindings
  else e1

/-- The fine-grained facts produced for one upstream table: one fact per
column-lineage entry that has a downstream column and at least one upstream
reference from this table. -/
def buildFGLs (r : SqlParsingResult) (expand_ctes replace_aliases : Bool)
    (defs : List (String × CTEDefinition)) (bindings : List (String × String))
    (downstream query_urn upstream : String) : List FineGrainedFact :=
  match r.column_lineage with
  | none => []
  | some cls =>
    cls.filterMap (fun cl =>
      if cl.downstream.column = "" then none
      else
        let refs := cl.upstreams.filter
          (fun ref => ref.table = upstream ∧ ref.column ≠ "")
        if refs.isEmpty then none
        else
          some
            { upstream_fields := refs.map (fun ref => (upstream, ref.column))
              downstream_field := (downstream, cl.downstream.column)
              transform := cl.logic.map
                (fun lg =>
                  (lg.is_direct_copy,
                   enhanceLogic expand_ctes replace_aliases defs bindings
                     lg.column_logic))
              query := query_urn
              confidence := r.debug_info.confidence })

/-- `infer_lineage_from_sql_with_enhanced_transformation_logic`, after the
base lineage result, the extracted definitions and the alias bindings are in
hand: the error gate (a table-resolution error is fatal; a column-resolution
error is only logged; a missing output table is fatal) followed by the
construction of everything that gets emitted. -/
def infer_lineage_enhanced (r : SqlParsingResult)
    (expand_ctes replace_aliases : Bool)
    (defs : List (String × CTEDefinition)) (bindings : List (String × String))
    (query_urn : String) : Except String EnhancedLineageOutput :=
  if (r.debug_info.table_error).isSome then
    .error ("Failed to parse SQL query: " ++ debugErr r.debug_info)
  else
    match r.out_tables with
    | [] => .error "No output tables found in the query. Cannot establish lineage."
    | downstream :: _ =>
      .ok
        { query_urn := query_urn
          fields_involved := fieldsInvolved r downstream
          patches :=
            (r.in_tables.filter (fun u => u ≠ downstream)).map
              (fun upstream =>
                { downstream := downstream
                  upstream := upstream
                  query := query_urn
                  fgls := buildFGLs r expand_ctes replace_aliases defs bindings
                    downstream query_urn upstream }) }

/-- Node kinds of a procedure execution flow (`NodeType`). -/
inductive NodeType where
  | PROCEDURE_START
  | CREATE_TEMP_TABLE
  | INSERT
  | UPDATE
  | DELETE
  | MERGE
  | TRUNCATE
  | SELECT_INTO
  | UNKNOWN
deriving DecidableEq, Repr

/-- One operation node extracted from a procedure (`ProcedureNode`; the
lineage/temp-table fields populated later are not part of decomposition). -/
structure ProcedureNode where
  node_id : String
  node_type : NodeType
  sql_text : String
  sequence_order : Nat
deriving DecidableEq, Repr

/-- A parsed SQL statement, carrying exactly what `parse_procedure_to_nodes`
and `_classify_statement_type` inspect: the `CREATE` kind / temporary flag /
parameter names / extracted body statements, and the statement's dialect
serialization.  `commandS` is a raw `exp.Command`; `otherS` covers every other
expression type. -/
inductive SqlStatement where
  | createS (kind : String) (temporary : Bool) (params : List String)
      (body : Option (List SqlStatement)) (sql : String)
  | commandS (sql : String)
  | insertS (sql : String)
  | updateS (sql : String)
  | deleteS (sql : String)
  | mergeS (sql : String)
  | otherS (sql : String)

/-- The statement's serialization `stmt.sql(dialect=dialect)`. -/
def stmtSql : SqlStatement → String
  | .createS _ _ _ _ s => s
  | .commandS s => s
  | .insertS s => s
  | .updateS s => s
  | .deleteS s => s
  | .mergeS s => s
  | .otherS s => s

/-- Byte-wise list version of `l2.startsWith l1`. -/
def startsWithCL : List Char → List Char → Bool
  | [], _ => true
  | _ :: _, [] => false
  | p :: ps, c :: cs => p == c && startsWithCL ps cs

/-- Substring search on character lists. -/
def containsCL (pat : List Char) : List Char → Bool
  | [] => pat.isEmpty
  | c :: cs => startsWithCL pat (c :: cs) || containsCL pat cs

/-- Python `pat in s` on strings. -/
def strContains (s pat : String) : Bool :=
  containsCL pat.data s.data

/-- ASCII-wise `str.lower()`. -/
def lowerStr (s : String) : String :=
  String.mk (s.data.map Char.toLower)

/-- ASCII-wise `str.upper()`. -/
def upperStr (s : String) : String :=
  String.mk (s.data.map Char.toUpper)

/-- `_classify_statement_type`. -/
def classifyStmt : SqlStatement → NodeType
  | .createS _ temporary _ _ _ =>
    if temporary then .CREATE_TEMP_TABLE else .UNKNOWN
  | .insertS _ => .INSERT
  | .updateS _ => .UPDATE
  | .deleteS _ => .DELETE
  | .mergeS _ => .MERGE
  | .commandS s => if strContains (lowerStr s) "truncate" then .TRUNCATE else .UNKNOWN
  | .otherS _ => .UNKNOWN

/-- Python `", ".join(params)`. -/
def joinComma : List String → String
  | [] => ""
  | [p] => p
  | p :: rest => p ++ ", " ++ joinComma rest

/-- Nodes for the inner statements of a function body, numbered consecutively
from `seq`; returns the nodes and the next sequence number. -/
def innerNodes : List SqlStatement → Nat → List ProcedureNode × Nat
  | [], seq => ([], seq)
  | st :: rest, seq =>
    let r := innerNodes rest (seq + 1)
    (⟨"node_" ++ Nat.repr seq, classifyStmt st, stmtSql st, seq⟩ :: r.1, r.2)

/-- Nodes for one top-level statement of the structural path.  A `CREATE
FUNCTION`/`PROCEDURE` first yields a `procedure_start` node when it declares
parameters, then one node per extracted body statement; every other statement
yields one classified node. -/
def nodesForStatement (st : SqlStatement) (seq : Nat) :
    List ProcedureNode × Nat :=
  match st with
  | .createS kind _ params body sql =>
    if kind = "FUNCTION" ∨ kind = "PROCEDURE" then
      let start :=
        if params.isEmpty then ([], seq)
        else
          ([(⟨"node_" ++ Nat.repr seq ++ "_start", .PROCEDURE_START,
              "-- Parameters: " ++ joinComma params, seq⟩ : ProcedureNode)],
           seq + 1)
      match body with
      | some inner =>
        let r := innerNodes inner start.2
        (start.1 ++ r.1, r.2)
      | none => start
    else
      ([⟨"node_" ++ Nat.repr seq, classifyStmt st, sql, seq⟩], seq + 1)
  | st =>
    ([⟨"node_" ++ Nat.repr seq, classifyStmt st, stmtSql st, seq⟩], seq + 1)

/-- The structural path's main loop over the parsed statement list (`None`
entries are skipped). -/
def structuralNodes : List (Option SqlStatement) → Nat → List ProcedureNode
  | [], _ => []
  | none :: rest, seq => structuralNodes rest seq
  | some st :: rest, seq =>
    let r := nodesForStatement st seq
    r.1 ++ structuralNodes rest r.2

/-- Outcomes of the two external parser entry points on the procedure text:
`parseMulti` is `sqlglot.parse` (`none` = raised), `parseSingle` is
`sqlglot.parse_one` (`none` = raised, `some none` = returned `None`). -/
structure ParseOracle where
  parseMulti : Option (List (Option SqlStatement))
  parseSingle : Option (Option SqlStatement)

/-- The statement list the structural path iterates over, `none` when both
parser entry points raise (the retried `parse_one` fails identically). -/
def parsedStatements (o : ParseOracle) : Option (List (Option SqlStatement)) :=
  match o.parseMulti with
  | some l => if l.isEmpty then o.parseSingle.map (fun s => [s]) else some l
  | none => o.parseSingle.map (fun s => [s])

/-- A regex match of the fallback extractor: start offset in the procedure
body, matched text (already `.strip()`ed), and the pattern's node type. -/
abbrev MatchT : Type := Nat × String × NodeType

/-- Python whitespace class `\s`. -/
def isWsChar (c : Char) : Bool :=
  c = ' ' ∨ c = '\t' ∨ c = '\n' ∨ c = '\r' ∨ c = '\x0b' ∨ c = '\x0c'

/-- `re.sub(r"--[^\n]*", "", s)`: drop from `--` to (excluding) the newline. -/
def stripLineComments : List Char → List Char
  | [] => []
  | [c] => [c]
  | c :: d :: rest =>
    if c = '-' ∧ d = '-' then
      stripLineComments (rest.dropWhile (fun x => x ≠ '\n'))
    else c :: stripLineComments (d :: rest)
termination_by l => l.length
decreasing_by
  · exact Nat.lt_succ_of_lt (Nat.lt_succ_of_le ((List.dropWhile_sublist _).length_le))
  · simp

/-- Whether `*/` occurs in the list. -/
def hasClose : List Char → Bool
  | [] => false
  | [_] => false
  | c :: d :: rest => if c = '*' ∧ d = '/' then true else hasClose (d :: rest)

/-- The suffix after the first `*/`. -/
def afterClose : List Char → List Char
  | [] => []
  | [_] => []
  | c :: d :: rest => if c = '*' ∧ d = '/' then rest else afterClose (d :: rest)

theorem afterClose_length_le : ∀ l : List Char, (afterClose l).length ≤ l.length
  | [] => Nat.le_refl _
  | [_] => by simp [afterClose]
  | c :: d :: rest => by
    rw [afterClose]
    split
    · simp only [List.length_cons]
      omega
    · exact Nat.le_trans (afterClose_length_le (d :: rest)) (Nat.le_succ _)

/-- `re.sub(r"/\*.*?\*/", " ", s, flags=DOTALL)`: each non-greedy block
comment becomes one space; an unterminated `/*` matches nothing. -/
def stripBlockComments : List Char → List Char
  | [] => []
  | [c] => [c]
  | c :: d :: rest =>
    if c = '/' ∧ d = '*' then
      if hasClose rest then ' ' :: stripBlockComments (afterClose rest)
      else c :: d :: rest
    else c :: stripBlockComments (d :: rest)
termination_by l => l.length
decreasing_by
  · exact Nat.lt_succ_of_lt (Nat.lt_succ_of_le (afterClose_length_le rest))
  · simp

/-- `re.sub(r"\s+", " ", s)`: each maximal whitespace run becomes one space;
the flag records whether the previous character was whitespace. -/
def collapseWsAux : Bool → List Char → List Char
  | _, [] => []
  | prevWs, c :: rest =>
    if isWsChar c then
      if prevWs then collapseWsAux true rest
      else ' ' :: collapseWsAux true rest
    else c :: collapseWsAux false rest

/-- Python `s2.endswith(s1)` via reversed character lists. -/
def endsWithStr (s pat : String) : Bool :=
  startsWithCL pat.data.reverse s.data.reverse

/-- The normalization applied to one matched statement: strip line comments,
replace block comments by a space, collapse whitespace runs, and append a
terminating `;` when missing. -/
def normStmt (t : String) : String :=
  let s := String.mk (collapseWsAux false (stripBlockComments (stripLineComments t.data)))
  if endsWithStr s ";" then s else s ++ ";"

/-- Stable insertion (after existing entries with a smaller-or-equal start
offset), used to model Python's stable `list.sort(key=start)`. -/
def insMatch (x : MatchT) : List MatchT → List MatchT
  | [] => [x]
  | y :: ys => if y.1 ≤ x.1 then y :: insMatch x ys else x :: y :: ys

/-- `all_matches.sort(key=lambda m: m[0])` (stable, ascending start offset). -/
def sortMatches (l : List MatchT) : List MatchT :=
  l.foldl (fun acc x => insMatch x acc) []

/-- The statement-collection loop of `_extract_statements_from_text`: each
position-sorted match is normalized and appended unless empty or already
collected. -/
def collectStatements (acc : List String) : List MatchT → List String
  | [] => acc
  | m :: rest =>
    let t := normStmt m.2.1
    if t ≠ "" ∧ t ∉ acc then collectStatements (acc ++ [t]) rest
    else collectStatements acc rest

/-- `_extract_statements_from_text`, given the regex matches over the
(BEGIN/END-delimited) procedure body: sort all matches by start offset, then
normalize and deduplicate their texts keeping first occurrences. -/
def _extract_statements_from_text (ms : List MatchT) : List String :=
  collectStatements [] (sortMatches ms)

/-- First-occurrence deduplication stated recursively (the spec-side
formulation the collection loop is proved to implement). -/
def fdedup {α : Type} [DecidableEq α] : List α → List α
  | [] => []
  | x :: xs => x :: fdedup (xs.filter (fun y => y ≠ x))
termination_by l => l.length
decreasing_by
  exact Nat.lt_succ_of_le (List.length_filter_le _ _)

/-- Inputs of the regex fallback path: the `FUNCTION (...)` parameter capture
(already stripped; `none` = no match), the statement-pattern matches, and the
`sqlglot.parse_one`-based classification used for texts no keyword matches
(total: a parse failure yields `UNKNOWN`). -/
structure FallbackOracle where
  paramText : Option String
  rmatches : List MatchT
  classifyText : String → NodeType

/-- The keyword classification `_parse_statements_with_regex_fallback`
applies to each extracted statement text. -/
def classifyByKeywords (fo : FallbackOracle) (sql : String) : NodeType :=
  let u := upperStr sql
  if strContains u "TRUNCATE" then .TRUNCATE
  else if strContains u "CREATE" ∧ (strContains u "TEMP" ∨ strContains u "TEMPORARY") then
    .CREATE_TEMP_TABLE
  else if strContains u "INSERT" then .INSERT
  else if strContains u "UPDATE" then .UPDATE
  else if strContains u "DELETE" then .DELETE
  else if strContains u "MERGE" then .MERGE
  else fo.classifyText sql

/-- `enumerate(statements, start=i)` turned into nodes. -/
def fallbackStmtNodes (fo : FallbackOracle) (i : Nat) :
    List String → List ProcedureNode
  | [] => []
  | t :: rest =>
    ⟨"node_" ++ Nat.repr i, classifyByKeywords fo t, t, i⟩ ::
      fallbackStmtNodes fo (i + 1) rest

/-- The optional `procedure_start` node built from the `FUNCTION (...)`
parameter capture. -/
def startNodesFallback (fo : FallbackOracle) : List ProcedureNode :=
  match fo.paramText with
  | some s =>
    if s ≠ "" then
      [⟨"node_0_start", .PROCEDURE_START, "-- Parameters: " ++ s, 0⟩]
    else []
  | none => []

/-- `_parse_statements_with_regex_fallback`: an optional `procedure_start`
node from the parameter capture, then one node per extracted statement,
numbered consecutively. -/
def _parse_statements_with_regex_fallback (fo : FallbackOracle) :
    List ProcedureNode :=
  startNodesFallback fo ++
    fallbackStmtNodes fo (startNodesFallback fo).length
      (_extract_statements_from_text fo.rmatches)

/-- `parse_procedure_to_nodes`: the structural path when the external parser
yields statements, the regex fallback when it yields no nodes, and a single
whole-input `unknown` node when everything else produced nothing (or when
both parser entry points raised). -/
def parse_procedure_to_nodes (o : ParseOracle) (fo : FallbackOracle)
    (procedure_sql : String) : List ProcedureNode :=
  match parsedStatements o with
  | none => [⟨"node_0", .UNKNOWN, procedure_sql, 0⟩]
  | some stmts =>
    let nodes := structuralNodes stmts 0
    let nodes := if nodes.isEmpty then _parse_statements_with_regex_fallback fo else nodes
    if nodes.isEmpty then [⟨"node_0", .UNKNOWN, procedure_sql, 0⟩] else nodes

/-- One projection of a `SELECT` list as sqlglot presents it:
`isAliasNode` is `isinstance(select_col, exp.Alias)`, `al` the alias text
(`""` when absent — also settable on non-`Alias` nodes via
`projection.set("alias", ...)`), `inner` the aliased expression (`.this` for
an `Alias` node, the projection itself otherwise; the serialization taken for
the column mapping drops the alias either way). -/
structure ProjNode where
  isAliasNode : Bool
  al : String
  inner : SqlExpr
deriving DecidableEq, Repr

/-- sqlglot's `Expression.name` fallback used by `alias_or_name`: the column
name for a column node, the literal text for a literal, `""` otherwise.  A
star projection is represented as `lit "*"`. -/
def exprName : SqlExpr → String
  | .col _ n => n
  | .lit v => v
  | .fn1 _ _ => ""
  | .fn2 _ _ _ => ""

/-- `select_col.alias_or_name`. -/
def aliasOrName (p : ProjNode) : String :=
  if p.al ≠ "" then p.al else exprName p.inner

/-- The body of `assign_anonymous_projection_aliases` for the projections of
one `SELECT`: each projection with a falsy alias gets the positional alias
`_col_{i}`. -/
def assignProjsAux (i : Nat) : List ProjNode → List ProjNode
  | [] => []
  | p :: rest =>
    (if p.al = "" then { p with al := "_col_" ++ Nat.repr i } else p) ::
      assignProjsAux (i + 1) rest

/-- `assign_anonymous_projection_aliases` on one `SELECT` list. -/
def assignProjs (ps : List ProjNode) : List ProjNode :=
  assignProjsAux 0 ps

/-- The `column_mappings` dict built from a `SELECT` list: one entry per
projection whose `alias_or_name` is non-empty and not `"*"`, keyed by that
name, valued by the (alias-stripped) projection expression; a later duplicate
name overwrites. -/
def mkMappingsAux (acc : List (String × SqlExpr)) :
    List ProjNode → List (String × SqlExpr)
  | [] => acc
  | p :: rest =>
    let nm := aliasOrName p
    if nm ≠ "" ∧ nm ≠ "*" then mkMappingsAux (dictInsert nm p.inner acc) rest
    else mkMappingsAux acc rest

/-- The `column_mappings` of one recorded `SELECT` body. -/
def mkMappings (ps : List ProjNode) : List (String × SqlExpr) :=
  mkMappingsAux [] ps

/-- A CTE body as `extract_ctes_from_optimized_sql` discriminates it:
a single `SELECT` (with its projections and serialization), a set operation
(`exp.Union`), or anything else (`VALUES`, ...). -/
inductive CTEBodyM where
  | selectB (projs : List ProjNode) (sql : String)
  | unionB (sql : String)
  | otherB (sql : String)
deriving DecidableEq, Repr

/-- One `exp.CTE` node found in the optimized statement (traversal order). -/
structure CTENodeM where
  al : String
  body : CTEBodyM
deriving DecidableEq, Repr

/-- One `exp.Join` operand relevant to the derived-table scan: whether
`join.this` is a subquery, its alias, and its inner body. -/
structure JoinSubM where
  isSubquery : Bool
  al : String
  body : CTEBodyM
deriving DecidableEq, Repr

/-- The per-CTE step of `extract_ctes_from_optimized_sql`. -/
def cteStep (acc : List (String × CTEDefinition)) (c : CTENodeM) :
    List (String × CTEDefinition) :=
  if c.al = "" then acc
  else
    match c.body with
    | .selectB projs sql => dictInsert c.al ⟨c.al, sql, mkMappings projs⟩ acc
    | .unionB sql => dictInsert c.al ⟨c.al, sql, []⟩ acc
    | .otherB _ => acc

/-- The per-join step of `extract_ctes_from_optimized_sql` (the virtual-CTE
scan over derived tables in joins). -/
def joinStep (acc : List (String × CTEDefinition)) (j : JoinSubM) :
    List (String × CTEDefinition) :=
  if j.isSubquery then
    match j.body with
    | .selectB projs sql =>
      if j.al ≠ "" then dictInsert j.al ⟨j.al, sql, mkMappings projs⟩ acc
      else acc
    | _ => acc
  else acc

/-- `extract_ctes_from_optimized_sql`: record every named CTE whose body is a
`SELECT` (with its column mappings) or a set operation (name only, empty
column map; other bodies are skipped), then record every aliased
`SELECT`-bodied join subquery as a virtual CTE.  Later duplicates of a name
overwrite earlier ones. -/
def extract_ctes_from_optimized_sql (ctes : List CTENodeM)
    (joins : List JoinSubM) : List (String × CTEDefinition) :=
  joins.foldl joinStep (ctes.foldl cteStep [])

/-- `assign_anonymous_projection_aliases` applied to a CTE body (it rewrites
every `SELECT` in the tree). -/
def assignBody : CTEBodyM → CTEBodyM
  | .selectB projs sql => .selectB (assignProjs projs) sql
  | b => b

/-- Positional-alias assignment over all CTE nodes of a statement. -/
def assignCtes (ctes : List CTENodeM) : List CTENodeM :=
  ctes.map (fun c => { c with body := assignBody c.body })

/-- Positional-alias assignment over all join subqueries of a statement. -/
def assignJoins (joins : List JoinSubM) : List JoinSubM :=
  joins.map (fun j => { j with body := assignBody j.body })

/-- `TempTableInfo` (the lineage-result attachment is not modelled: no claim
touches it). -/
structure TempTableInfo where
  table_name : String
  columns : List (String × String)
  created_in_node_id : String
  dataset_urn : Option String
deriving DecidableEq, Repr

/-- `TempTableTracker` state. -/
structure TempTableTracker where
  temp_tables : List (String × TempTableInfo)
  table_name_variations : List (String × String)
deriving DecidableEq, Repr

/-- An empty tracker (`TempTableTracker()`). -/
def TempTableTracker.empty : TempTableTracker := ⟨[], []⟩

/-- `register_temp_table`: keys are the lowercase-normalized table name; a
re-registration overwrites. -/
def register_temp_table (tr : TempTableTracker) (table_name : String)
    (columns : List (String × String)) (created_in_node_id : String)
    (dataset_urn : Option String) : TempTableTracker :=
  ⟨dictInsert (lowerStr table_name)
      ⟨table_name, columns, created_in_node_id, dataset_urn⟩ tr.temp_tables,
   dictInsert (lowerStr table_name) table_name tr.table_name_variations⟩

/-- `is_temp_table`. -/
def is_temp_table (tr : TempTableTracker) (table_name : String) : Bool :=
  ((tr.temp_tables).lookup (lowerStr table_name)).isSome

/-- `get_temp_table`. -/
def get_temp_table (tr : TempTableTracker) (table_name : String) :
    Option TempTableInfo :=
  (tr.temp_tables).lookup (lowerStr table_name)

/-- `resolve_column_source`: table lookup is lowercase-normalized, column
lookup is an exact dict-key match. -/
def resolve_column_source (tr : TempTableTracker) (table_name column_name : String) :
    Option String :=
  match get_temp_table tr table_name with
  | some info => info.columns.lookup column_name
  | none => none

theorem lookup_filter_ne {α : Type} {m : List (String × α)} {k : String} :
    (m.filter (fun kv => kv.1 ≠ k)).lookup k = none := by
  rw [List.lookup_eq_none_iff]
  intro p hp
  have := (List.mem_filter.mp hp).2
  simp only [decide_eq_true_eq] at this
  simp [bne_iff_ne, Ne.symm this]

theorem lookup_dictInsert_self {α : Type} (k : String) (v : α)
    (m : List (String × α)) : (dictInsert k v m).lookup k = some v := by
  unfold dictInsert
  rw [List.lookup_append, lookup_filter_ne]
  simp

theorem lookup_filter_ne_of_ne {α : Type} {m : List (String × α)}
    {k k' : String} (h : k' ≠ k) :
    (m.filter (fun kv => kv.1 ≠ k)).lookup k' = m.lookup k' := by
  induction m with
  | nil => rfl
  | cons a rest ih =>
    by_cases ha : a.1 = k
    · have hfil : (a :: rest).filter (fun kv => kv.1 ≠ k) =
          rest.filter (fun kv => kv.1 ≠ k) := by
        simp [List.filter, ha]
      rw [hfil, ih]
      cases a with
      | mk a1 a2 =>
        have hb : (k' == a1) = false := by
          subst ha
          exact beq_eq_false_iff_ne.mpr h
        simp [List.lookup_cons, hb]
    · have : (a :: rest).filter (fun kv => kv.1 ≠ k) =
          a :: rest.filter (fun kv => kv.1 ≠ k) := by
        simp [List.filter, ha]
      rw [this]
      cases a with
      | mk a1 a2 =>
        simp only [List.lookup_cons]
        split
        · rfl
        · exact ih

theorem lookup_dictInsert_ne {α : Type} {k k' : String} (v : α)
    (m : List (String × α)) (h : k' ≠ k) :
    (dictInsert k v m).lookup k' = m.lookup k' := by
  unfold dictInsert
  rw [List.lookup_append, lookup_filter_ne_of_ne h]
  cases hm : m.lookup k' with
  | none =>
    have hb : (k' == k) = false := beq_eq_false_iff_ne.mpr h
    simp [List.lookup_cons, hb]
  | some b => simp

theorem mem_of_lookup_eq_some {α : Type} {m : List (String × α)} {k : String}
    {v : α} (h : m.lookup k = some v) : (k, v) ∈ m := by
  rcases List.lookup_eq_some_iff.mp h with ⟨l₁, l₂, rfl, -⟩
  simp

theorem expandRec_iterate (defs : List (String × CTEDefinition))
    (hne : defs ≠ []) :
    ∀ (N : Nat) (p : ProjExpr), ∃ k, k ≤ N ∧
      expand_cte_references_recursively defs p N =
        (fun q => passOnce defs q)^[k] p
  | 0, p => ⟨0, Nat.le_refl _, rfl⟩
  | d + 1, p => by
    cases defs with
    | nil => exact absurd rfl hne
    | cons a as =>
    rw [expand_cte_references_recursively]
    simp only [List.isEmpty_cons, if_false, Bool.false_eq_true]
    split
    · obtain ⟨k', hk', heq⟩ :=
        expandRec_iterate (a :: as) hne d ⟨(expandPassE (a :: as) p.expr).1, none⟩
      refine ⟨k' + 1, by omega, ?_⟩
      rw [heq, Function.iterate_succ_apply]
      rfl
    · exact ⟨1, by omega, rfl⟩

/-- C1: `RecursiveExpander` terminates for every input: expansion is a total
function of the expression, the definitions and the depth; depth `0` (the
model of `N ≤ 0`) and empty definitions return the input unchanged; and the
result of depth `N` is always some `k ≤ N` iterations of the single
replacement pass applied to the input — each re-run consumes one unit of
depth — so even an infinitely self-referential definition graph yields a
result. -/
theorem expand_cte_references_recursively_total_and_bounded
    (defs : List (String × CTEDefinition)) (p : ProjExpr) (N : Nat) :
    expand_cte_references_recursively defs p 0 = p ∧
    (defs = [] → expand_cte_references_recursively defs p N = p) ∧
    (defs ≠ [] → ∃ k, k ≤ N ∧
      expand_cte_references_recursively defs p N =
        (fun q => passOnce defs q)^[k] p) := by
  refine ⟨rfl, ?_, fun hne => expandRec_iterate defs hne N p⟩
  intro h
  subst h
  cases N with
  | zero => rfl
  | succ d => rw [expand_cte_references_recursively]; simp

theorem expand_cte_references_recursively_total_and_bounded_witness :
    expand_cte_references_recursively
        [("c", ⟨"c", "", [("x", .col "c" "x")]⟩)] ⟨.col "c" "x", none⟩ 0 =
      ⟨.col "c" "x", none⟩ ∧
    ∃ k, k ≤ 3 ∧
      expand_cte_references_recursively
          [("c", ⟨"c", "", [("x", .col "c" "x")]⟩)] ⟨.col "c" "x", none⟩ 3 =
        (fun q => passOnce [("c", ⟨"c", "", [("x", .col "c" "x")]⟩)] q)^[k]
          ⟨.col "c" "x", none⟩ := by
  refine ⟨(expand_cte_references_recursively_total_and_bounded
    [("c", ⟨"c", "", [("x", .col "c" "x")]⟩)] ⟨.col "c" "x", none⟩ 3).1, ?_⟩
  exact (expand_cte_references_recursively_total_and_bounded
    [("c", ⟨"c", "", [("x", .col "c" "x")]⟩)] ⟨.col "c" "x", none⟩ 3).2.2
    (by decide)

theorem rewriteQual_idem (m : List (String × String)) (hs : StableBindings m)
    (t : String) : rewriteQual m (rewriteQual m t) = rewriteQual m t := by
  by_cases h0 : t = ""
  · simp [rewriteQual, h0]
  · cases hl : m.lookup t with
    | none =>
      have hin : rewriteQual m t = t := by
        rw [rewriteQual, if_neg h0, hl]
      rw [hin]
      exact hin
    | some ident =>
      have hin : rewriteQual m t = tableNameFromIdent ident := by
        rw [rewriteQual, if_neg h0, hl]
      rw [hin]
      by_cases hn : tableNameFromIdent ident = ""
      · rw [rewriteQual, if_pos hn]
      · cases hl2 : m.lookup (tableNameFromIdent ident) with
        | none => rw [rewriteQual, if_neg hn, hl2]
        | some id2 =>
          rw [rewriteQual, if_neg hn, hl2]
          exact hs (t, ident) (mem_of_lookup_eq_some hl) id2 hl2

theorem mapQual_idem (m : List (String × String)) (hs : StableBindings m) :
    ∀ e : SqlExpr, mapQual m (mapQual m e) = mapQual m e
  | .col t n => by simp [mapQual, rewriteQual_idem m hs]
  | .lit v => rfl
  | .fn1 op a => by simp [mapQual, mapQual_idem m hs a]
  | .fn2 op a b => by
    simp [mapQual, mapQual_idem m hs a, mapQual_idem m hs b]

theorem replace_table_aliases_not_idempotent_cx :
    replace_table_aliases_with_names
        (replace_table_aliases_with_names ⟨.col "a" "k", none⟩
          [("a", "x.b"), ("b", "x.c")])
        [("a", "x.b"), ("b", "x.c")] ≠
      replace_table_aliases_with_names ⟨.col "a" "k", none⟩
        [("a", "x.b"), ("b", "x.c")] := by
  decide

/-- C2 (amended): `AliasResolver` is idempotent for every *stable* binding
mapping — one in which no bare table name produced by a rewrite is itself a
bound alias of a different table name.  (As stated over all mappings the
claim fails: a rewritten qualifier can itself be a key of the mapping and be
rewritten again on the second run, see the counterexample.) -/
theorem replace_table_aliases_idempotent_of_stable
    (m : List (String × String)) (p : ProjExpr) (hs : StableBindings m) :
    replace_table_aliases_with_names (replace_table_aliases_with_names p m) m =
      replace_table_aliases_with_names p m := by
  by_cases hm : m.isEmpty
  · simp [replace_table_aliases_with_names, hm]
  · simp [replace_table_aliases_with_names, hm, mapQual_idem m hs]

theorem replace_table_aliases_idempotent_of_stable_witness :
    StableBindings [("a", "x.b")] ∧
    replace_table_aliases_with_names
        (replace_table_aliases_with_names ⟨.col "a" "k", some "al"⟩
          [("a", "x.b")])
        [("a", "x.b")] =
      replace_table_aliases_with_names ⟨.col "a" "k", some "al"⟩
        [("a", "x.b")] := by
  have hs : StableBindings [("a", "x.b")] := by
    intro kv hkv id2 h2
    have hkv' : kv = ("a", "x.b") := List.mem_singleton.mp hkv
    subst hkv'
    have hname : tableNameFromIdent ("a", "x.b").2 = "b" := by decide
    rw [hname] at h2
    have : ([("a", "x.b")].lookup "b" : Option String) = none := by decide
    rw [this] at h2
    cases h2
  exact ⟨hs, replace_table_aliases_idempotent_of_stable [("a", "x.b")]
    ⟨.col "a" "k", some "al"⟩ hs⟩

theorem expandPassE_id_of_fresh (defs : List (String × CTEDefinition)) :
    ∀ e : SqlExpr,
      (∀ tn ∈ colsOf e, defs.lookup tn.1 = none ∧ firstExport defs tn.1 = none) →
      expandPassE defs e = (e, false)
  | .col t n, h => by
    obtain ⟨h1, h2⟩ := h (t, n) (by simp [colsOf])
    simp [expandPassE, substColE, h1, h2]
  | .lit v, _ => rfl
  | .fn1 op a, h => by
    have ha := expandPassE_id_of_fresh defs a
      (fun tn htn => h tn (by simp [colsOf, htn]))
    simp [expandPassE, ha]
  | .fn2 op a b, h => by
    have ha := expandPassE_id_of_fresh defs a
      (fun tn htn => h tn (by simp [colsOf, htn]))
    have hb := expandPassE_id_of_fresh defs b
      (fun tn htn => h tn (by simp [colsOf, htn]))
    simp [expandPassE, ha, hb]

theorem mapQual_id_of_fresh (m : List (String × String)) :
    ∀ e : SqlExpr,
      (∀ tn ∈ colsOf e, m.lookup tn.1 = none) → mapQual m e = e
  | .col t n, h => by
    have h1 := h (t, n) (by simp [colsOf])
    by_cases h0 : t = "" <;> simp [mapQual, rewriteQual, h0, h1]
  | .lit v, _ => rfl
  | .fn1 op a, h => by
    have ha := mapQual_id_of_fresh m a (fun tn htn => h tn (by simp [colsOf, htn]))
    simp [mapQual, ha]
  | .fn2 op a b, h => by
    have ha := mapQual_id_of_fresh m a (fun tn htn => h tn (by simp [colsOf, htn]))
    have hb := mapQual_id_of_fresh m b (fun tn htn => h tn (by simp [colsOf, htn]))
    simp [mapQual, ha, hb]

theorem untracked_qualifiers_cx :
    expand_cte_references_recursively [("c", ⟨"c", "", [("z", .lit "1")]⟩)]
        ⟨.lit "5", some "y"⟩ 1 ≠ ⟨.lit "5", some "y"⟩ ∧
    replace_table_aliases_with_names ⟨.lit "5", some "y"⟩
        [("a", "x.b"), ("b", "x.c")] ≠ ⟨.lit "5", some "y"⟩ := by
  decide

/-- C3 (amended): for every expression whose parse carries no top-level
projection alias, if every column-reference qualifier (the empty qualifier of
an unqualified reference included) is neither a key of the definitions
mapping, nor an exported column name of any definition, nor a key of the
alias bindings, then both `expand_cte_references_recursively` and
`replace_table_aliases_with_names` return the expression unmodified.  (As
stated over all expression texts the claim fails: a projection-level alias is
stripped by the reserialization step even when nothing is replaced, see the
counterexample.) -/
theorem untracked_qualifiers_unmodified
    (defs : List (String × CTEDefinition)) (m : List (String × String))
    (p : ProjExpr) (N : Nat) (hal : p.projAlias = none)
    (h : ∀ tn ∈ colsOf p.expr,
      defs.lookup tn.1 = none ∧ firstExport defs tn.1 = none ∧
        m.lookup tn.1 = none) :
    expand_cte_references_recursively defs p N = p ∧
    replace_table_aliases_with_names p m = p := by
  obtain ⟨e, al⟩ := p
  simp only at hal
  subst hal
  constructor
  · cases N with
    | zero => rfl
    | succ d =>
      cases defs with
      | nil => rw [expand_cte_references_recursively]; simp
      | cons a as =>
        rw [expand_cte_references_recursively]
        have hpass := expandPassE_id_of_fresh (a :: as) e
          (fun tn htn => ⟨(h tn htn).1, (h tn htn).2.1⟩)
        simp [hpass]
  · by_cases hm : m.isEmpty
    · simp [replace_table_aliases_with_names, hm]
    · have hmap := mapQual_id_of_fresh m e (fun tn htn => (h tn htn).2.2)
      simp [replace_table_aliases_with_names, hm, hmap]

theorem untracked_qualifiers_unmodified_witness :
    expand_cte_references_recursively
        [("c", ⟨"c", "", [("x", .col "c" "x")]⟩)]
        ⟨.fn2 "+" (.col "q" "x") (.lit "1"), none⟩ 5 =
      ⟨.fn2 "+" (.col "q" "x") (.lit "1"), none⟩ ∧
    replace_table_aliases_with_names
        ⟨.fn2 "+" (.col "q" "x") (.lit "1"), none⟩ [("a", "x.b")] =
      ⟨.fn2 "+" (.col "q" "x") (.lit "1"), none⟩ :=
  untracked_qualifiers_unmodified
    [("c", ⟨"c", "", [("x", .col "c" "x")]⟩)] [("a", "x.b")]
    ⟨.fn2 "+" (.col "q" "x") (.lit "1"), none⟩ 5 rfl (by decide)

/-- C4: the enhancement pipeline returns an explicit error — and therefore
emits nothing — exactly when the base lineage result carries a
table-resolution error or names no output table; and the presence or absence
of a column-resolution error never changes the outcome (it is only logged):
the pipeline's result is invariant under replacing `column_error` by `none`,
so a column error alone still yields the full success output built from the
resolved columns. -/
theorem infer_lineage_enhanced_error_gate (r : SqlParsingResult)
    (ec ra : Bool) (defs : List (String × CTEDefinition))
    (bindings : List (String × String)) (qurn : String) :
    ((∃ msg, infer_lineage_enhanced r ec ra defs bindings qurn = .error msg) ↔
      ((r.debug_info.table_error).isSome ∨ r.out_tables = [])) ∧
    (∀ ce : Option String,
      infer_lineage_enhanced
          { r with debug_info := { r.debug_info with column_error := ce } }
          ec ra defs bindings qurn =
        infer_lineage_enhanced
          { r with debug_info := { r.debug_info with column_error := none } }
          ec ra defs bindings qurn) := by
  constructor
  · cases h : r.debug_info.table_error with
    | some e =>
      simp only [infer_lineage_enhanced, h]
      simp
    | none =>
      cases ho : r.out_tables with
      | nil =>
        simp only [infer_lineage_enhanced, h, ho]
        simp
      | cons d rest =>
        simp only [infer_lineage_enhanced, h, ho]
        simp
  · intro ce
    cases h : r.debug_info.table_error with
    | some e =>
      simp only [infer_lineage_enhanced, debugErr, h]
      rfl
    | none =>
      cases ho : r.out_tables with
      | nil => simp only [infer_lineage_enhanced, h, ho]; rfl
      | cons d rest => simp only [infer_lineage_enhanced, h, ho]; rfl

theorem innerNodes_spec : ∀ (l : List SqlStatement) (seq : Nat),
    ((innerNodes l seq).1).map (fun nd => nd.sequence_order) =
        List.range' seq l.length ∧
      (innerNodes l seq).2 = seq + l.length
  | [], seq => by simp [innerNodes]
  | st :: rest, seq => by
    obtain ⟨h1, h2⟩ := innerNodes_spec rest (seq + 1)
    simp only [innerNodes, List.map_cons, h1, h2, List.length_cons]
    constructor
    · rw [List.range'_succ]
    · omega

theorem nodesForStatement_spec (st : SqlStatement) (seq : Nat) :
    ∃ n, ((nodesForStatement st seq).1).map (fun nd => nd.sequence_order) =
        List.range' seq n ∧
      (nodesForStatement st seq).2 = seq + n := by
  cases st with
  | createS kind temporary params body sql =>
    rw [nodesForStatement]
    split
    · by_cases hp : params.isEmpty
      · cases body with
        | none => exact ⟨0, by simp [hp], by simp [hp]⟩
        | some inner =>
          obtain ⟨h1, h2⟩ := innerNodes_spec inner seq
          refine ⟨inner.length, ?_, ?_⟩ <;> simp [hp, h1, h2]
      · cases body with
        | none =>
          refine ⟨1, ?_, ?_⟩ <;> simp [hp, List.range']
        | some inner =>
          obtain ⟨h1, h2⟩ := innerNodes_spec inner (seq + 1)
          refine ⟨inner.length + 1, ?_, ?_⟩
          · simp only [hp, if_false, List.map_append, List.map_cons,
              List.map_nil, h1]
            rw [List.range'_succ]
            simpa using h1
          · simp [hp, h2]
            omega
    · exact ⟨1, by simp [List.range'], by omega⟩
  | commandS s => exact ⟨1, by simp [nodesForStatement, List.range'], by simp [nodesForStatement]⟩
  | insertS s => exact ⟨1, by simp [nodesForStatement, List.range'], by simp [nodesForStatement]⟩
  | updateS s => exact ⟨1, by simp [nodesForStatement, List.range'], by simp [nodesForStatement]⟩
  | deleteS s => exact ⟨1, by simp [nodesForStatement, List.range'], by simp [nodesForStatement]⟩
  | mergeS s => exact ⟨1, by simp [nodesForStatement, List.range'], by simp [nodesForStatement]⟩
  | otherS s => exact ⟨1, by simp [nodesForStatement, List.range'], by simp [nodesForStatement]⟩

theorem structuralNodes_spec : ∀ (l : List (Option SqlStatement)) (seq : Nat),
    ∃ n, (structuralNodes l seq).map (fun nd => nd.sequence_order) =
      List.range' seq n
  | [], seq => ⟨0, by simp [structuralNodes]⟩
  | none :: rest, seq => structuralNodes_spec rest seq
  | some st :: rest, seq => by
    obtain ⟨n1, h1, h2⟩ := nodesForStatement_spec st seq
    obtain ⟨n2, h3⟩ := structuralNodes_spec rest (nodesForStatement st seq).2
    refine ⟨n1 + n2, ?_⟩
    rw [h2] at h3
    simp only [structuralNodes, List.map_append, h1, h2]
    rw [h3, List.range'_append_1, Nat.add_comm]

theorem fallbackStmtNodes_spec (fo : FallbackOracle) :
    ∀ (ts : List String) (i : Nat),
      (fallbackStmtNodes fo i ts).map (fun nd => nd.sequence_order) =
        List.range' i ts.length
  | [], i => by simp [fallbackStmtNodes]
  | t :: rest, i => by
    simp only [fallbackStmtNodes, List.map_cons, List.length_cons,
      fallbackStmtNodes_spec fo rest (i + 1)]
    rw [List.range'_succ]

theorem regex_fallback_spec (fo : FallbackOracle) :
    ∃ n, (_parse_statements_with_regex_fallback fo).map
      (fun nd => nd.sequence_order) = List.range' 0 n := by
  unfold _parse_statements_with_regex_fallback
  cases hp : fo.paramText with
  | none =>
    simp only [startNodesFallback, hp, List.length_nil, List.nil_append]
    exact ⟨_, fallbackStmtNodes_spec fo _ 0⟩
  | some s =>
    by_cases hs : s = ""
    · simp only [startNodesFallback, hp, if_neg (by simp [hs] :
        ¬(s ≠ "")), List.length_nil, List.nil_append]
      exact ⟨_, fallbackStmtNodes_spec fo _ 0⟩
    · refine ⟨(_extract_statements_from_text fo.rmatches).length + 1, ?_⟩
      simp only [startNodesFallback, hp, if_pos hs, List.length_cons,
        List.length_nil, List.cons_append, List.nil_append, List.map_cons,
        fallbackStmtNodes_spec fo _ 1]
      rw [List.range'_succ]

theorem ifSemi_ne_empty (s : String) :
    (if endsWithStr s ";" then s else s ++ ";") ≠ "" := by
  split
  · next hends =>
    intro hcontra
    rw [hcontra] at hends
    exact absurd hends (by decide)
  · intro hcontra
    have hlen := congrArg String.length hcontra
    rw [String.length_append] at hlen
    have h1 : (";" : String).length = 1 := by decide
    have h0 : ("" : String).length = 0 := by decide
    omega

theorem normStmt_ne_empty (t : String) : normStmt t ≠ "" :=
  ifSemi_ne_empty _

theorem fdedup_sublist {α : Type} [DecidableEq α] :
    ∀ l : List α, List.Sublist (fdedup l) l
  | [] => by rw [fdedup]
  | x :: xs => by
    rw [fdedup]
    exact List.Sublist.cons₂ x
      ((fdedup_sublist _).trans (List.filter_sublist xs))
termination_by l => l.length
decreasing_by
  exact Nat.lt_succ_of_le (List.length_filter_le _ _)

theorem fdedup_nodup {α : Type} [DecidableEq α] :
    ∀ l : List α, (fdedup l).Nodup
  | [] => by rw [fdedup]; exact List.nodup_nil
  | x :: xs => by
    rw [fdedup]
    refine List.nodup_cons.mpr ⟨?_, fdedup_nodup _⟩
    intro hmem
    have hsub := (fdedup_sublist (xs.filter (fun y => y ≠ x))).subset hmem
    have := (List.mem_filter.mp hsub).2
    simp at this
termination_by l => l.length
decreasing_by
  exact Nat.lt_succ_of_le (List.length_filter_le _ _)

theorem collectStatements_eq :
    ∀ (l : List MatchT) (acc : List String),
      collectStatements acc l =
        acc ++ fdedup ((l.map (fun mt => normStmt mt.2.1)).filter
          (fun t => t ∉ acc))
  | [], acc => by simp [collectStatements, fdedup]
  | mt :: rest, acc => by
    simp only [collectStatements, List.map_cons]
    by_cases hmem : normStmt mt.2.1 ∈ acc
    · rw [if_neg (by simp [hmem]), collectStatements_eq rest acc]
      have : (normStmt mt.2.1 :: rest.map (fun mt => normStmt mt.2.1)).filter
            (fun t => t ∉ acc) =
          (rest.map (fun mt => normStmt mt.2.1)).filter (fun t => t ∉ acc) := by
        rw [List.filter_cons]
        simp [hmem]
      rw [this]
    · rw [if_pos ⟨normStmt_ne_empty mt.2.1, hmem⟩,
        collectStatements_eq rest (acc ++ [normStmt mt.2.1])]
      have hfc : (normStmt mt.2.1 :: rest.map (fun mt => normStmt mt.2.1)).filter
            (fun t => t ∉ acc) =
          normStmt mt.2.1 ::
            (rest.map (fun mt => normStmt mt.2.1)).filter (fun t => t ∉ acc) := by
        rw [List.filter_cons]
        simp [hmem]
      rw [hfc, fdedup]
      have hff : (rest.map (fun mt => normStmt mt.2.1)).filter
            (fun t => t ∉ acc ++ [normStmt mt.2.1]) =
          ((rest.map (fun mt => normStmt mt.2.1)).filter
            (fun t => t ∉ acc)).filter (fun y => y ≠ normStmt mt.2.1) := by
        rw [List.filter_filter]
        refine List.filter_congr ?_
        intro x _
        by_cases h1 : x ∈ acc <;> by_cases h2 : x = normStmt mt.2.1 <;>
          simp [h1, h2]
      rw [hff]
      simp

theorem extract_statements_eq_fdedup (ms : List MatchT) :
    _extract_statements_from_text ms =
      fdedup ((sortMatches ms).map (fun mt => normStmt mt.2.1)) := by
  unfold _extract_statements_from_text
  rw [collectStatements_eq]
  simp

theorem mapSeq_range_of_range' {l : List ProcedureNode}
    (h : ∃ n, l.map (fun nd => nd.sequence_order) = List.range' 0 n) :
    l.map (fun nd => nd.sequence_order) = List.range l.length := by
  obtain ⟨n, h⟩ := h
  have hn : l.length = n := by
    have := congrArg List.length h
    simpa using this
  rw [List.range_eq_range', hn]
  exact h

/-- C6: in every path of `ProcedureDecomposer` the emitted nodes carry
`sequence_order` values `0, 1, 2, …` — strictly increasing and equal to each
node's emission position; and the fallback extractor emits its statements as
a subsequence of the start-offset-sorted match list, i.e. in left-to-right
textual appearance order of the matches in the source. -/
theorem parse_procedure_sequence_order (o : ParseOracle) (fo : FallbackOracle)
    (s : String) (ms : List MatchT) :
    (parse_procedure_to_nodes o fo s).map (fun nd => nd.sequence_order) =
      List.range (parse_procedure_to_nodes o fo s).length ∧
    List.Sublist (_extract_statements_from_text ms)
      ((sortMatches ms).map (fun mt => normStmt mt.2.1)) := by
  constructor
  · apply mapSeq_range_of_range'
    cases hp : parsedStatements o with
    | none =>
      simp only [parse_procedure_to_nodes, hp]
      exact ⟨1, by simp [List.range']⟩
    | some stmts =>
      simp only [parse_procedure_to_nodes, hp]
      cases hE : structuralNodes stmts 0 with
      | nil =>
        simp only [List.isEmpty_nil, if_true]
        cases hF : _parse_statements_with_regex_fallback fo with
        | nil => exact ⟨1, by simp [List.range']⟩
        | cons a t =>
          simp only [List.isEmpty_cons, Bool.false_eq_true, if_false]
          rw [← hF]
          exact regex_fallback_spec fo
      | cons a t =>
        simp only [List.isEmpty_cons, Bool.false_eq_true, if_false]
        rw [← hE]
        exact structuralNodes_spec stmts 0
  · rw [extract_statements_eq_fdedup]
    exact fdedup_sublist _

/-- C5: `ProcedureDecomposer` is total: for every parser outcome and every
procedure text the returned node list is non-empty (the model is a total
function, so nothing is ever raised); and when the structural path and the
regex fallback both yield nothing, the result is a single `unknown` node
whose statement text is the entire input. -/
theorem parse_procedure_to_nodes_total (o : ParseOracle) (fo : FallbackOracle)
    (s : String) :
    parse_procedure_to_nodes o fo s ≠ [] ∧
    ((∀ stmts, parsedStatements o = some stmts →
        structuralNodes stmts 0 = []) →
      _parse_statements_with_regex_fallback fo = [] →
      parse_procedure_to_nodes o fo s =
        [⟨"node_0", NodeType.UNKNOWN, s, 0⟩]) := by
  cases hp : parsedStatements o with
  | none =>
    refine ⟨?_, fun _ _ => ?_⟩ <;> simp [parse_procedure_to_nodes, hp]
  | some stmts =>
    constructor
    · simp only [parse_procedure_to_nodes, hp]
      cases hE : structuralNodes stmts 0 with
      | nil =>
        simp only [List.isEmpty_nil, if_true]
        cases hF : _parse_statements_with_regex_fallback fo with
        | nil => simp
        | cons a t => simp
      | cons a t => simp
    · intro h1 h2
      have he : structuralNodes stmts 0 = [] := h1 stmts rfl
      simp [parse_procedure_to_nodes, hp, he, h2]

theorem parse_procedure_to_nodes_total_witness :
    parse_procedure_to_nodes ⟨some [], some none⟩
        ⟨none, [], fun _ => NodeType.UNKNOWN⟩ "BODY" =
      [⟨"node_0", NodeType.UNKNOWN, "BODY", 0⟩] ∧
    parse_procedure_to_nodes ⟨some [], some none⟩
        ⟨none, [], fun _ => NodeType.UNKNOWN⟩ "BODY" ≠ [] := by
  have h := parse_procedure_to_nodes_total ⟨some [], some none⟩
    ⟨none, [], fun _ => NodeType.UNKNOWN⟩ "BODY"
  refine ⟨h.2 ?_ rfl, h.1⟩
  intro stmts hs
  have h2 : ([none] : List (Option SqlStatement)) = stmts := Option.some.inj hs
  rw [← h2]
  rfl

/-- C9: the regex fallback statement extractor deduplicates by normalized
statement text: its output is exactly the first-occurrence deduplication
(`fdedup`) of the normalized texts of the position-sorted matches, and hence
contains no duplicate — a normalized text matching at two positions produces
one node, so fewer nodes than matches may be emitted. -/
theorem extract_statements_dedup_first (ms : List MatchT) :
    _extract_statements_from_text ms =
      fdedup ((sortMatches ms).map (fun mt => normStmt mt.2.1)) ∧
    (_extract_statements_from_text ms).Nodup := by
  refine ⟨extract_statements_eq_fdedup ms, ?_⟩
  rw [extract_statements_eq_fdedup]
  exact fdedup_nodup _

theorem cteStep_lookup_ne {acc : List (String × CTEDefinition)}
    {c : CTENodeM} {a : String} (h : c.al ≠ a) :
    (cteStep acc c).lookup a = acc.lookup a := by
  unfold cteStep
  split
  · rfl
  · cases c.body with
    | selectB projs sql => exact lookup_dictInsert_ne _ _ (Ne.symm h)
    | unionB sql => exact lookup_dictInsert_ne _ _ (Ne.symm h)
    | otherB sql => rfl

theorem joinStep_lookup_ne {acc : List (String × CTEDefinition)}
    {j : JoinSubM} {a : String} (h : j.al ≠ a) :
    (joinStep acc j).lookup a = acc.lookup a := by
  obtain ⟨jsq, jal, jbody⟩ := j
  unfold joinStep
  cases jsq with
  | false => rfl
  | true =>
    cases jbody with
    | selectB projs sql =>
      by_cases hal : (⟨true, jal, .selectB projs sql⟩ : JoinSubM).al ≠ ""
      · rw [if_pos rfl]
        show (if jal ≠ "" then _ else acc).lookup a = _
        rw [if_pos hal]
        exact lookup_dictInsert_ne _ _ (Ne.symm h)
      · rw [if_pos rfl]
        show (if jal ≠ "" then _ else acc).lookup a = _
        rw [if_neg hal]
    | unionB sql => rfl
    | otherB sql => rfl

theorem cteStep_union (acc : List (String × CTEDefinition)) (a sql : String)
    (ha : a ≠ "") :
    cteStep acc ⟨a, .unionB sql⟩ = dictInsert a ⟨a, sql, []⟩ acc := by
  unfold cteStep
  rw [if_neg (by simpa using ha)]

theorem cteStep_other (acc : List (String × CTEDefinition)) (a s2 : String) :
    cteStep acc ⟨a, .otherB s2⟩ = acc := by
  unfold cteStep
  split <;> rfl

theorem foldl_cteStep_lookup {a : String} :
    ∀ (l : List CTENodeM) (acc : List (String × CTEDefinition)),
      (∀ c ∈ l, c.al ≠ a) →
      (l.foldl cteStep acc).lookup a = acc.lookup a
  | [], acc, _ => rfl
  | c :: rest, acc, h => by
    rw [List.foldl_cons,
      foldl_cteStep_lookup rest _ (fun x hx => h x (by simp [hx]))]
    exact cteStep_lookup_ne (h c (by simp))

theorem foldl_joinStep_lookup {a : String} :
    ∀ (l : List JoinSubM) (acc : List (String × CTEDefinition)),
      (∀ j ∈ l, j.al ≠ a) →
      (l.foldl joinStep acc).lookup a = acc.lookup a
  | [], acc, _ => rfl
  | j :: rest, acc, h => by
    rw [List.foldl_cons,
      foldl_joinStep_lookup rest _ (fun x hx => h x (by simp [hx]))]
    exact joinStep_lookup_ne (h j (by simp))

theorem assignCtes_al {ctes : List CTENodeM} {a : String}
    (h : ∀ c ∈ ctes, c.al ≠ a) : ∀ c ∈ assignCtes ctes, c.al ≠ a := by
  intro c hc
  obtain ⟨c', hc', rfl⟩ := List.mem_map.mp hc
  exact h c' hc'

theorem assignJoins_al {joins : List JoinSubM} {a : String}
    (h : ∀ j ∈ joins, j.al ≠ a) : ∀ j ∈ assignJoins joins, j.al ≠ a := by
  intro j hj
  obtain ⟨j', hj', rfl⟩ := List.mem_map.mp hj
  exact h j' hj'

theorem extract_not_single_select_cx :
    (extract_ctes_from_optimized_sql
      [⟨"v", .otherB "(VALUES (1))"⟩] []).lookup "v" = none := by
  decide

/-- C7 (amended): a named CTE whose body is a set operation (`Union`) is
recorded with an empty column map, so later column lookups against that name
find no columns; but a named CTE whose body is neither a single `SELECT` nor
a set operation (e.g. `VALUES`) is skipped entirely — no Definition is
recorded for it.  (The claim as stated — every non-single-`SELECT` body is
recorded — fails on such bodies, see the counterexample.) -/
theorem cte_union_recorded_with_empty_map
    (pre post : List CTENodeM) (joins : List JoinSubM) (a sql : String)
    (ha : a ≠ "") (hpre : ∀ c ∈ pre, c.al ≠ a)
    (hpost : ∀ c ∈ post, c.al ≠ a) (hj : ∀ j ∈ joins, j.al ≠ a) :
    (extract_ctes_from_optimized_sql (pre ++ ⟨a, .unionB sql⟩ :: post)
        joins).lookup a = some ⟨a, sql, []⟩ ∧
    ∀ s2, (extract_ctes_from_optimized_sql (pre ++ ⟨a, .otherB s2⟩ :: post)
        joins).lookup a = none := by
  constructor
  · unfold extract_ctes_from_optimized_sql
    rw [foldl_joinStep_lookup joins _ hj, List.foldl_append, List.foldl_cons,
      foldl_cteStep_lookup post _ hpost, cteStep_union _ a sql ha]
    exact lookup_dictInsert_self _ _ _
  · intro s2
    unfold extract_ctes_from_optimized_sql
    rw [foldl_joinStep_lookup joins _ hj, List.foldl_append, List.foldl_cons,
      foldl_cteStep_lookup post _ hpost, cteStep_other,
      foldl_cteStep_lookup pre _ hpre]
    rfl

theorem cte_union_recorded_with_empty_map_witness :
    (extract_ctes_from_optimized_sql
        [⟨"u", .unionB "SELECT 1 UNION SELECT 2"⟩] []).lookup "u" =
      some ⟨"u", "SELECT 1 UNION SELECT 2", []⟩ ∧
    (extract_ctes_from_optimized_sql
        [⟨"u", .otherB "(VALUES (1))"⟩] []).lookup "u" = none := by
  have h := cte_union_recorded_with_empty_map [] [] [] "u"
    "SELECT 1 UNION SELECT 2" (by decide) (by simp) (by simp) (by simp)
  exact ⟨h.1, h.2 "(VALUES (1))"⟩

theorem cteStep_select (acc : List (String × CTEDefinition)) (a : String)
    (ps : List ProjNode) (sql : String) (ha : a ≠ "") :
    cteStep acc ⟨a, .selectB ps sql⟩ =
      dictInsert a ⟨a, sql, mkMappings ps⟩ acc := by
  unfold cteStep
  rw [if_neg (by simpa using ha)]

theorem colName_ne_empty (x : String) : ("_col_" ++ x) ≠ "" := by
  intro h
  have hlen := congrArg String.length h
  rw [String.length_append] at hlen
  have h5 : ("_col_" : String).length = 5 := by decide
  have h0 : ("" : String).length = 0 := by decide
  omega

theorem colName_ne_star (x : String) : ("_col_" ++ x) ≠ "*" := by
  intro h
  have hlen := congrArg String.length h
  rw [String.length_append] at hlen
  have h5 : ("_col_" : String).length = 5 := by decide
  have h1 : ("*" : String).length = 1 := by decide
  omega

theorem aliasOrName_set (p : ProjNode) (K : String) (hK : K ≠ "") :
    aliasOrName { p with al := K } = K := by
  simp [aliasOrName, hK]

theorem assignProjsAux_append :
    ∀ (l1 : List ProjNode) (i : Nat) (l2 : List ProjNode),
      assignProjsAux i (l1 ++ l2) =
        assignProjsAux i l1 ++ assignProjsAux (i + l1.length) l2
  | [], i, l2 => by simp [assignProjsAux]
  | p :: rest, i, l2 => by
    simp only [List.cons_append, assignProjsAux, List.length_cons,
      List.append_eq]
    rw [show i + (rest.length + 1) = i + 1 + rest.length by omega,
      ← assignProjsAux_append rest (i + 1) l2]

theorem mkMappingsAux_append :
    ∀ (l1 : List ProjNode) (acc : List (String × SqlExpr)) (l2 : List ProjNode),
      mkMappingsAux acc (l1 ++ l2) = mkMappingsAux (mkMappingsAux acc l1) l2
  | [], acc, l2 => rfl
  | p :: rest, acc, l2 => by
    simp only [List.cons_append, mkMappingsAux]
    split
    · exact mkMappingsAux_append rest _ l2
    · exact mkMappingsAux_append rest _ l2

theorem mkMappingsAux_lookup_skip {K : String} :
    ∀ (l : List ProjNode) (acc : List (String × SqlExpr)),
      (∀ q ∈ l, aliasOrName q ≠ K) →
      (mkMappingsAux acc l).lookup K = acc.lookup K
  | [], acc, _ => rfl
  | p :: rest, acc, h => by
    simp only [mkMappingsAux]
    split
    · rw [mkMappingsAux_lookup_skip rest _ (fun q hq => h q (by simp [hq]))]
      exact lookup_dictInsert_ne _ _ (Ne.symm (h p (by simp)))
    · exact mkMappingsAux_lookup_skip rest _ (fun q hq => h q (by simp [hq]))

/-- C8: for every statement run through positional alias assignment
(`assign_anonymous_projection_aliases`, the in-repository mirror of the
upstream optimizer's output-aliasing convention) and then through
`extract_ctes_from_optimized_sql`, a CTE `SELECT` projection carrying no
explicit alias at zero-based position `i` is recorded in that CTE's
Definition under the positional placeholder name `_col_i`, mapping to its
defining expression — provided, as for any dict entry, that no later
projection of the same `SELECT` (and no later CTE or join of the statement
for the definition itself) produces the same name and overwrites it. -/
theorem definition_positional_aliases
    (pre post : List CTENodeM) (joins : List JoinSubM) (a sql : String)
    (l1 l2 : List ProjNode) (p : ProjNode) (ha : a ≠ "")
    (hpost : ∀ c ∈ post, c.al ≠ a) (hj : ∀ j ∈ joins, j.al ≠ a)
    (hp : p.al = "")
    (hno : ∀ q ∈ assignProjsAux (l1.length + 1) l2,
      aliasOrName q ≠ "_col_" ++ Nat.repr l1.length) :
    ∃ d, (extract_ctes_from_optimized_sql
        (assignCtes (pre ++ ⟨a, .selectB (l1 ++ p :: l2) sql⟩ :: post))
        (assignJoins joins)).lookup a = some d ∧
      d.columnMappings.lookup ("_col_" ++ Nat.repr l1.length) =
        some p.inner := by
  refine ⟨⟨a, sql, mkMappings (assignProjs (l1 ++ p :: l2))⟩, ?_, ?_⟩
  · unfold extract_ctes_from_optimized_sql
    rw [foldl_joinStep_lookup _ _ (assignJoins_al hj)]
    have hsplit : assignCtes
        (pre ++ (⟨a, .selectB (l1 ++ p :: l2) sql⟩ : CTENodeM) :: post) =
        assignCtes pre ++
          (⟨a, .selectB (assignProjs (l1 ++ p :: l2)) sql⟩ : CTENodeM) ::
            assignCtes post := by
      unfold assignCtes
      rw [List.map_append, List.map_cons]
      rfl
    rw [hsplit, List.foldl_append, List.foldl_cons,
      foldl_cteStep_lookup _ _ (assignCtes_al hpost),
      cteStep_select _ a _ sql ha]
    exact lookup_dictInsert_self _ _ _
  · show (mkMappings (assignProjsAux 0 (l1 ++ p :: l2))).lookup _ = _
    rw [assignProjsAux_append l1 0 (p :: l2), Nat.zero_add]
    show (mkMappings (assignProjsAux 0 l1 ++
      ((if p.al = "" then
          { p with al := "_col_" ++ Nat.repr l1.length }
        else p) :: assignProjsAux (l1.length + 1) l2))).lookup _ = _
    rw [if_pos hp]
    unfold mkMappings
    rw [mkMappingsAux_append]
    show (mkMappingsAux _
      ({ p with al := "_col_" ++ Nat.repr l1.length } ::
        assignProjsAux (l1.length + 1) l2)).lookup _ = _
    simp only [mkMappingsAux,
      aliasOrName_set p _ (colName_ne_empty (Nat.repr l1.length))]
    rw [if_pos ⟨colName_ne_empty (Nat.repr l1.length),
      colName_ne_star (Nat.repr l1.length)⟩]
    rw [mkMappingsAux_lookup_skip _ _ hno]
    exact lookup_dictInsert_self _ _ _

theorem definition_positional_aliases_witness :
    ∃ d, (extract_ctes_from_optimized_sql
        (assignCtes [⟨"c", .selectB [⟨false, "", .col "t" "x"⟩]
          "SELECT t.x FROM t"⟩]) (assignJoins [])).lookup "c" = some d ∧
      d.columnMappings.lookup ("_col_" ++ Nat.repr 0) = some (.col "t" "x") :=
  definition_positional_aliases [] [] [] "c" "SELECT t.x FROM t" [] []
    ⟨false, "", .col "t" "x"⟩ (by decide) (by simp) (by simp) rfl
    (by simp [assignProjsAux])

/-- C10: `TempTableTracker` lookup is case-insensitive in the table name but
case-sensitive in the column name: after registering a table, `is_temp_table`
and `get_temp_table` succeed for every string with the same lowercase
normalization as the registered name, and `resolve_column_source` returns
exactly the result of an exact, character-for-character key lookup of the
column name in the registered column dict. -/
theorem temp_table_lookup_case_sensitivity
    (tr : TempTableTracker) (nm : String) (cols : List (String × String))
    (nid : String) (urn : Option String) (v c : String)
    (hv : lowerStr v = lowerStr nm) :
    is_temp_table (register_temp_table tr nm cols nid urn) v = true ∧
    get_temp_table (register_temp_table tr nm cols nid urn) v =
      some ⟨nm, cols, nid, urn⟩ ∧
    resolve_column_source (register_temp_table tr nm cols nid urn) v c =
      cols.lookup c := by
  have hget : get_temp_table (register_temp_table tr nm cols nid urn) v =
      some ⟨nm, cols, nid, urn⟩ := by
    unfold get_temp_table register_temp_table
    rw [hv]
    exact lookup_dictInsert_self _ _ _
  refine ⟨?_, hget, ?_⟩
  · show (get_temp_table (register_temp_table tr nm cols nid urn) v).isSome = true
    rw [hget]
    rfl
  · unfold resolve_column_source
    rw [hget]

theorem temp_table_lookup_case_sensitivity_witness :
    is_temp_table
        (register_temp_table .empty "Tmp" [("A", "x")] "n1" none) "TMP" = true ∧
    get_temp_table
        (register_temp_table .empty "Tmp" [("A", "x")] "n1" none) "TMP" =
      some ⟨"Tmp", [("A", "x")], "n1", none⟩ ∧
    resolve_column_source
        (register_temp_table .empty "Tmp" [("A", "x")] "n1" none) "tmp" "A" =
      some "x" ∧
    resolve_column_source
        (register_temp_table .empty "Tmp" [("A", "x")] "n1" none) "tmp" "a" =
      none := by
  have h1 := temp_table_lookup_case_sensitivity .empty "Tmp" [("A", "x")]
    "n1" none "TMP" "A" (by decide)
  have h2 := temp_table_lookup_case_sensitivity .empty "Tmp" [("A", "x")]
    "n1" none "tmp" "A" (by decide)
  have h3 := temp_table_lookup_case_sensitivity .empty "Tmp" [("A", "x")]
    "n1" none "tmp" "a" (by decide)
  exact ⟨h1.1, h1.2.1, h2.2.2.trans (by decide), h3.2.2.trans (by decide)⟩
